import Mathlib

/-!
Verification development for the `subprocess` package
(`src/subprocess/subprocess.go`): a pty-driven expect/interact engine.

The Go source is shallowly embedded as follows.

* The expect engine (`ExpectExpressionsWithTimeout` and its wrappers) is a
  `select` loop racing three channel cases: the deadline context, the error
  channel fed by the background reader goroutine `readOutput`, and a 50µs
  timer tick on which the accumulated output buffer is snapshotted and every
  pattern is tested in list order.  We embed it as a deterministic machine
  `runExpect` consuming a timestamped event trace; each event is one
  `select`-case firing (an append by the reader, an error delivery, a match
  tick, or the deadline).  Any goroutine interleaving of the real program is
  some trace, so properties quantified over traces cover all schedules.
* Go `regexp.Regexp` values are opaque to the engine (`r.Find(b) != nil` is
  the only operation used), so a pattern is embedded as `List Char → Bool`.
* `readOutput` calls `io.Copy(&temp, s.pty)` per iteration.  `io.Copy` is
  embedded with its documented semantics: it reads `src` until end-of-stream
  (returning a nil error) or until a read fails (returning that error); while
  data is available but the stream is neither ended nor failed, the read
  blocks.  The pty byte stream is a list of read events.
* `Interact` spawns four goroutines over one cancellable context; it is
  embedded as a state machine over delivery events (error delivery to
  `listenForShutdown`, signal delivery, `cmd.Wait` returning, a task
  observing cancellation).
* Machine integers do not occur; times and error codes are `Nat`.
-/

namespace Subproc

/-! ## Patterns and the matching scan

`Pattern` embeds a compiled regular expression as the engine uses it:
the only operation the engine performs is `r.Find(b) != nil`. -/

def Pattern : Type := List Char → Bool

/-- The never-matching pattern, used as an out-of-range default. -/
def pfalse : Pattern := fun _ => false

/-- Does `pat` occur at the head of `s`?  (helper for literal patterns) -/
def listPrefix : List Char → List Char → Bool
  | [], _ => true
  | _ :: _, [] => false
  | p :: ps, c :: cs => (p == c) && listPrefix ps cs

/-- Does `pat` occur anywhere in `s`?  (helper for literal patterns) -/
def containsSub (pat : List Char) : List Char → Bool
  | [] => listPrefix pat []
  | c :: cs => listPrefix pat (c :: cs) || containsSub pat cs

/-- A literal regular expression such as `/foo/`: `Find` succeeds exactly
when the literal occurs as a substring. -/
def substrPat (pat : List Char) : Pattern := fun s => containsSub pat s

/-- The pattern scan of the matcher loop in `ExpectExpressionsWithTimeout`
(src/subprocess/subprocess.go:239-244):
`for i, r := range expressions { if r.Find(b) != nil { index = i; break } }`.
Returns the index of the first pattern, in caller-supplied list order, whose
`Find` succeeds on the snapshot `b`. -/
def findMatch : List Pattern → List Char → Option Nat
  | [], _ => none
  | p :: ps, b => if p b then some 0 else (findMatch ps b).map (· + 1)

/-! ## Errors

`ErrTimeout` (src/subprocess/subprocess.go:21) is a package-level sentinel;
a reader failure is returned as `errors.Wrap(err, "error reading from pty")`.
We embed the two as distinct constructors, the wrap keeping the wrapped
code. -/

inductive ExpectErr where
  | timeout : ExpectErr
  | io : Nat → ExpectErr
deriving DecidableEq

/-! ## The select loop of `ExpectExpressionsWithTimeout`

One `Event` is one firing of a `select` case, stamped with the time at which
it fires (`Nat`, nanoseconds since the call started):

* `append bs` — the reader goroutine appended `bs` to the shared buffer;
* `errev e`   — the loop received error code `e` from the error channel;
* `tick`      — the 50µs timer fired: snapshot the buffer, scan patterns;
* `deadline`  — the loop received from `ctx.Done()` of the deadline context.
-/

inductive Event where
  | append : List Char → Event
  | errev : Nat → Event
  | tick : Event
  | deadline : Event
deriving DecidableEq

/-- Result of running the loop on a trace: either the trace ended with the
call still looping (buffer contents attached), or the call returned at time
`t` with `(idx, err)`. -/
inductive Outcome where
  | running : List Char → Outcome
  | done : Nat → Int → Option ExpectErr → Outcome
deriving DecidableEq

/-- The `OUTER` loop of `ExpectExpressionsWithTimeout`
(src/subprocess/subprocess.go:226-249), one trace event per iteration:

* `ctx.Done()` → `e = ErrTimeout; break` with `index` still `-1`;
* `err := <-errs` → `e = errors.Wrap(err, ...); break` with `index = -1`;
* the 50µs timer → snapshot `b` of `output` under the read lock and run the
  pattern scan; a hit returns that index with nil error, otherwise loop;
* a reader append extends the shared buffer.

Events after a `break` are not consumed: the call has returned. -/
def runExpect (ps : List Pattern) : List (Nat × Event) → List Char → Outcome
  | [], buf => .running buf
  | (t, .deadline) :: _, _ => .done t (-1) (some .timeout)
  | (t, .errev e) :: _, _ => .done t (-1) (some (.io e))
  | (_, .append bs) :: rest, buf => runExpect ps rest (buf ++ bs)
  | (t, .tick) :: rest, buf =>
      match findMatch ps buf with
      | some i => .done t (Int.ofNat i) none
      | none => runExpect ps rest buf

/-- Context semantics of `context.WithDeadline(…, time.Now().Add(timeout))`
(src/subprocess/subprocess.go:214): `ctx.Done()` can fire no earlier than
the deadline.  A trace is well formed for timeout `d` when every deadline
event carries a time of at least `d`. -/
def wfTrace (d : Nat) : List (Nat × Event) → Bool
  | [] => true
  | (t, .deadline) :: rest => decide (d ≤ t) && wfTrace d rest
  | (_, _) :: rest => wfTrace d rest

/-- No error delivery occurs in the trace. -/
def noErrEv : List (Nat × Event) → Bool
  | [] => true
  | (_, .errev _) :: _ => false
  | (_, _) :: rest => noErrEv rest

/-- Some deadline delivery occurs in the trace. -/
def hasDeadline : List (Nat × Event) → Bool
  | [] => false
  | (_, .deadline) :: _ => true
  | (_, _) :: rest => hasDeadline rest

/-- No tick of the trace, replayed from buffer `buf`, sees a matching
snapshot. -/
def ticksNeverMatch (ps : List Pattern) : List (Nat × Event) → List Char → Bool
  | [], _ => true
  | (_, .append bs) :: rest, buf => ticksNeverMatch ps rest (buf ++ bs)
  | (_, .tick) :: rest, buf =>
      (findMatch ps buf).isNone && ticksNeverMatch ps rest buf
  | (_, _) :: rest, buf => ticksNeverMatch ps rest buf

/-! ## The exported query surface -/

/-- `time.Second` in nanoseconds (Go `time.Duration` units). -/
def second : Nat := 1000000000

/-- `DefaultTimeout = 30 * time.Second` (src/subprocess/subprocess.go:23). -/
def DefaultTimeout : Nat := 30 * second

/-- Project the loop outcome to the Go return value `(index, err)`;
`none` when the trace ends before the call returns. -/
def extractOutcome : Outcome → Option (Int × Option ExpectErr)
  | .running _ => none
  | .done _ i e => some (i, e)

/-- `ExpectExpressionsWithTimeout(expressions, timeout)`
(src/subprocess/subprocess.go:212-254) as a function of the schedule `tr`;
only schedules consistent with the deadline context are possible. -/
def ExpectExpressionsWithTimeout (ps : List Pattern) (d : Nat)
    (tr : List (Nat × Event)) : Option (Int × Option ExpectErr) :=
  if wfTrace d tr = true then extractOutcome (runExpect ps tr []) else none

/-- `ExpectWithTimeout(expression, duration)`
(src/subprocess/subprocess.go:167-173): wraps the pattern in a one-element
list and returns `(index == 0, err)`. -/
def ExpectWithTimeout (p : Pattern) (d : Nat) (tr : List (Nat × Event)) :
    Option (Bool × Option ExpectErr) :=
  (ExpectExpressionsWithTimeout [p] d tr).map fun r => (r.1 == 0, r.2)

/-- `Expect(expression)` (src/subprocess/subprocess.go:175-177). -/
def Expect (p : Pattern) (tr : List (Nat × Event)) :
    Option (Bool × Option ExpectErr) :=
  ExpectWithTimeout p DefaultTimeout tr

/-- `ExpectExpressions(expressions)` (src/subprocess/subprocess.go:179-181). -/
def ExpectExpressions (ps : List Pattern) (tr : List (Nat × Event)) :
    Option (Int × Option ExpectErr) :=
  ExpectExpressionsWithTimeout ps DefaultTimeout tr

/-! ## The background reader `readOutput`

`readOutput` (src/subprocess/subprocess.go:183-210) loops: each iteration
runs `io.Copy(&temp, s.pty)` into a fresh temporary buffer, then on a non-EOF
error sends the error and returns, otherwise appends the copied bytes (if
any) to the shared buffer under the write lock and loops.

The pty is modelled as the stream of results its successive reads deliver. -/

/-- One read result from the pty master:
* `bytes bs` — a successful read delivering `bs`;
* `eos`      — the read returns `io.EOF`;
* `fail e`   — the read returns a non-nil, non-EOF error with code `e`;
* `block`    — the read blocks (data may exist later, but not yet; the
  child holds the pty open and is silent).  Reads after a `block` never
  happen inside the same `io.Copy` call. -/
inductive ReadEv where
  | bytes : List Char → ReadEv
  | eos : ReadEv
  | fail : Nat → ReadEv
  | block : ReadEv
deriving DecidableEq

/-- The error-code value of `io.EOF`.  `io.Copy` never returns it (it maps
end-of-stream to a nil error), so `ioCopy` below never produces it; the
source's `err != io.EOF` test is embedded against this value. -/
def ioEOF : Nat := 0

/-- `io.Copy(dst, src)` per its documented contract: read `src` until
end-of-stream (return the bytes copied so far and a nil error) or until a
read fails (return the bytes copied so far and that error).  A blocked read,
or running off the modelled stream, means the call has not returned:
`none`.  Also returns the unconsumed remainder of the stream. -/
def ioCopy : List ReadEv → List Char → Option (List Char × Option Nat × List ReadEv)
  | [], _ => none
  | .block :: _, _ => none
  | .bytes bs :: rest, acc => ioCopy rest (acc ++ bs)
  | .eos :: rest, acc => some (acc, none, rest)
  | .fail e :: rest, acc => some (acc, some e, rest)

/-- What the reader goroutine does to the shared state, per iteration. -/
inductive REvent where
  | append : List Char → REvent
  | errSend : Nat → REvent
deriving DecidableEq

/-- The iterations of `readOutput` (src/subprocess/subprocess.go:183-210),
fuelled by the iteration count (the real loop runs until cancelled; any
finite observation is covered by some fuel):

* `io.Copy` has not returned (blocked read) → no further shared-state
  effects within this call;
* `io.Copy` returned a non-nil error `e`: if `e != io.EOF`, send `e` on the
  error channel and return — note the bytes already copied into `temp` are
  discarded; if `e == io.EOF`, fall through to the append;
* otherwise append the copied bytes when `n > 0`, and loop. -/
def readerEvents : Nat → List ReadEv → List REvent
  | 0, _ => []
  | fuel + 1, stream =>
      match ioCopy stream [] with
      | none => []
      | some (bs, some e, rest) =>
          if e == ioEOF then
            (if bs.isEmpty then [] else [.append bs]) ++ readerEvents fuel rest
          else [.errSend e]
      | some (bs, none, rest) =>
          (if bs.isEmpty then [] else [.append bs]) ++ readerEvents fuel rest

/-- A reader effect as the select-loop event it causes. -/
def reventToEvent : REvent → Event
  | .append bs => .append bs
  | .errSend e => .errev e

/-- The reader-caused events of a select-loop trace, in order: a schedule
`tr` is an interleaving of the reader's effects with ticks and the deadline
exactly when `proj tr` equals the reader's event list. -/
def proj (tr : List (Nat × Event)) : List Event :=
  tr.filterMap fun te =>
    match te with
    | (_, .append bs) => some (.append bs)
    | (_, .errev e) => some (.errev e)
    | _ => none

/-! ## Bytes written to the pty: `Send` and `SendLine`

Go strings are UTF-8; `[]byte(value)` yields the UTF-8 encoding.  We embed
strings as `List Char` and the conversion as explicit UTF-8 encoding. -/

/-- UTF-8 encoding of one Unicode scalar value `n` (Go's string bytes). -/
def utf8Bytes (n : Nat) : List Nat :=
  if n < 128 then [n]
  else if n < 2048 then [192 + n / 64, 128 + n % 64]
  else if n < 65536 then [224 + n / 4096, 128 + (n / 64) % 64, 128 + n % 64]
  else [240 + n / 262144, 128 + (n / 4096) % 64, 128 + (n / 64) % 64,
        128 + n % 64]

/-- `[]byte(value)` for a Go string: UTF-8 bytes of its characters. -/
def toBytes : List Char → List Nat
  | [] => []
  | c :: cs => utf8Bytes c.toNat ++ toBytes cs

/-- `os.ErrInvalid`, returned by a write on a nil `*os.File`
(`File.checkValid` returns it when the receiver is nil; no panic). -/
def errInvalid : Nat := 1

/-- The `SubProcess` struct (src/subprocess/subprocess.go:25-30), restricted
to the fields the claims touch: `command.Process` is nil until `Start`
succeeds, and the pty handle is nil until `Start` succeeds.  A valid pty
records the bytes written to it so far. -/
structure SubProcess where
  proc : Option Unit
  pty : Option (List Nat)
deriving DecidableEq

/-- `NewSubProcess` (src/subprocess/subprocess.go:32-41): builds the
`exec.Cmd` but spawns nothing — `command.Process` and the pty handle are
both nil.  (The constructor's error result is always nil.) -/
def NewSubProcess : SubProcess := ⟨none, none⟩

/-- A session on which `Start` (src/subprocess/subprocess.go:144-152) has
succeeded: `pty.Start` spawned the child and returned a valid pty handle. -/
def startedSession : SubProcess := ⟨some (), some []⟩

/-- `s.pty.Write([]byte(value))`: a nil `*os.File` receiver returns
`os.ErrInvalid` (per the `os` package: `checkValid` on a nil file); a valid
handle appends the bytes to the pty stream and returns a nil error. -/
def ptyWrite (s : SubProcess) (bs : List Nat) : SubProcess × Option Nat :=
  match s.pty with
  | none => (s, some errInvalid)
  | some w => ({ s with pty := some (w ++ bs) }, none)

/-- `Send(value)` (src/subprocess/subprocess.go:158-161). -/
def Send (s : SubProcess) (v : List Char) : SubProcess × Option Nat :=
  ptyWrite s (toBytes v)

/-- `SendLine(value)` (src/subprocess/subprocess.go:163-165):
`return s.Send(value + "\r\n")`. -/
def SendLine (s : SubProcess) (v : List Char) : SubProcess × Option Nat :=
  Send s (v ++ ['\r', '\n'])

/-- Result of a Go call that may panic instead of returning. -/
inductive CloseRes where
  | panics : CloseRes
  | ok : Option Nat → CloseRes
deriving DecidableEq

/-- `Close()` (src/subprocess/subprocess.go:154-156):
`return s.command.Process.Kill()`.  When `Start` has not run,
`command.Process` is nil and `(*os.Process).Kill` dereferences its nil
receiver: the call panics.  Otherwise `Kill` delivers `SIGKILL` and returns
nil; it performs no wait on the child. -/
def Close (s : SubProcess) : CloseRes :=
  match s.proc with
  | none => .panics
  | some _ => .ok none

/-! ## Child-process lifecycle: kill versus reap

`(*os.Process).Kill` only delivers `SIGKILL`; a killed child becomes a
zombie until some call performs `wait(2)` on it.  In this package the only
caller of `cmd.Wait` is `Interact`'s `waitForCommandCompletion`
(src/subprocess/subprocess.go:73-94). -/

inductive PState where
  | running : PState
  | zombie : PState
  | reaped : PState
deriving DecidableEq

/-- The exported calls of a started session, as they affect the child. -/
inductive SOp where
  | close : SOp
  | send : SOp
  | sendLine : SOp
  | expectOp : SOp
  | interact : SOp
deriving DecidableEq

/-- Effect of one call on the child's lifecycle state: `Close` kills (the
child dies, unreaped); `Interact` runs `cmd.Wait`, which reaps; `Send`,
`SendLine` and the `Expect` family never wait on the child. -/
def pstep (st : PState) (op : SOp) : PState :=
  match op with
  | .close => match st with | .running => .zombie | s => s
  | .interact => .reaped
  | _ => st

/-- The child's state after a sequence of calls on a started session. -/
def pRun (ops : List SOp) : PState := ops.foldl pstep .running

/-! ## `Interact` and its four worker goroutines

`Interact` (src/subprocess/subprocess.go:115-142) spawns
`listenForShutdown`, `waitForCommandCompletion` and two `copyFrom`
goroutines over one `context.WithCancel` context, blocks on `wg.Wait()`,
prints the session's in-memory log if non-empty, and returns nil.

One `IEvent` is one scheduler-visible delivery:
* `errDeliver e` — a worker's error is received by `listenForShutdown`,
  which writes it to the process-wide `log` package and cancels;
* `sigWinch` — `SIGWINCH`: resize the pty, keep looping;
* `sigInterrupt` — `os.Interrupt`/`SIGINT`/`SIGTSTP`: cancel and return;
* `childExit oe` — `cmd.Wait` returns with error `oe`; a non-nil error is
  first delivered on the error channel (so it needs `listenForShutdown`
  still running), then `done` is closed;
* `waitObserve` — `waitForCommandCompletion`'s select fires (`ctx.Done` or
  `done`) and the goroutine returns;
* `copyOutStop` / `copyInStop` — a `copyFrom` goroutine sees `ctx.Done`
  and returns. -/
inductive IEvent where
  | errDeliver : Nat → IEvent
  | sigWinch : IEvent
  | sigInterrupt : IEvent
  | childExit : Option Nat → IEvent
  | waitObserve : IEvent
  | copyOutStop : IEvent
  | copyInStop : IEvent
deriving DecidableEq

/-- The shared state of `Interact`'s goroutines.  `globalLog` is the
process-wide `log` package output (written immediately); `sessionLog` is
`s.log`, the in-memory logger printed at the end of `Interact` when
non-empty. -/
structure IState where
  listenRunning : Bool
  waitRunning : Bool
  copyOutRunning : Bool
  copyInRunning : Bool
  cancelled : Bool
  childExited : Bool
  globalLog : List Nat
  sessionLog : List Nat
deriving DecidableEq

def initIState : IState :=
  ⟨true, true, true, true, false, false, [], []⟩

/-- One delivery against the shared state, following
`listenForShutdown` (src/subprocess/subprocess.go:43-71),
`waitForCommandCompletion` (73-94) and `copyFrom` (96-113).  Deliveries
whose guard does not hold (e.g. an error send with no listener) leave the
state unchanged: they have not happened yet. -/
def istep (s : IState) (e : IEvent) : IState :=
  match e with
  | .errDeliver e =>
      if s.listenRunning then
        { s with listenRunning := false, cancelled := true,
                 globalLog := s.globalLog ++ [e] }
      else s
  | .sigWinch => s
  | .sigInterrupt =>
      if s.listenRunning then
        { s with listenRunning := false, cancelled := true }
      else s
  | .childExit none => { s with childExited := true }
  | .childExit (some e) =>
      if s.listenRunning then
        { s with listenRunning := false, cancelled := true,
                 childExited := true, globalLog := s.globalLog ++ [e] }
      else s
  | .waitObserve =>
      if s.waitRunning && (s.cancelled || s.childExited) then
        { s with waitRunning := false }
      else s
  | .copyOutStop =>
      if s.copyOutRunning && s.cancelled then
        { s with copyOutRunning := false }
      else s
  | .copyInStop =>
      if s.copyInRunning && s.cancelled then
        { s with copyInRunning := false }
      else s

/-- The shared state after a sequence of deliveries. -/
def interactRun (tr : List IEvent) : IState := tr.foldl istep initIState

/-- `wg.Wait()` returns exactly when all four workers have stopped. -/
def allStopped (s : IState) : Bool :=
  !s.listenRunning && !s.waitRunning && !s.copyOutRunning && !s.copyInRunning

/-- The value `Interact` returns (src/subprocess/subprocess.go:141:
`return nil`), whatever happened. -/
def InteractResult (_ : List IEvent) : Option Nat := none

/-- The errors consumed by `listenForShutdown` during the run are exactly
the deliveries it accepted; this lists every error a trace tries to
deliver. -/
def deliveredErrors (tr : List IEvent) : List Nat :=
  tr.filterMap fun e =>
    match e with
    | .errDeliver x => some x
    | .childExit (some x) => some x
    | _ => none

/-- Deliveries that make `listenForShutdown` cancel the shared context. -/
def cancelEvent : IEvent → Bool
  | .errDeliver _ => true
  | .sigInterrupt => true
  | .childExit (some _) => true
  | _ => false

/-- Deliveries possible in a run where the child exits cleanly, no worker
fails, and the operator sends no interrupt. -/
def cleanEvent : IEvent → Bool
  | .childExit none => true
  | .waitObserve => true
  | .copyOutStop => true
  | .copyInStop => true
  | .sigWinch => true
  | _ => false

/-- Claim formalisation: a clean (error-free) child exit, by itself, lets
`Interact` return — some schedule of clean deliveries containing the clean
child exit stops all four workers. -/
def CleanExitReturns : Prop :=
  ∃ tr : List IEvent, (∀ e ∈ tr, cleanEvent e = true) ∧
    IEvent.childExit none ∈ tr ∧ allStopped (interactRun tr) = true

/-! ## Concrete inputs used in witnesses and counterexamples -/

def fooChars : List Char := ['f', 'o', 'o']
def barChars : List Char := ['b', 'a', 'r']
def barfooChars : List Char := ['b', 'a', 'r', 'f', 'o', 'o']
def readyChars : List Char := ['r', 'e', 'a', 'd', 'y']

/-- The pty stream of spec Scenario A: the child prints `"ready"` after a
delay, then blocks without closing the pty. -/
def readyThenBlock : List ReadEv := [.bytes readyChars, .block]

def c4trace : List IEvent :=
  [.errDeliver 7, .waitObserve, .copyOutStop, .copyInStop]

def c5trace : List IEvent :=
  [.sigInterrupt, .waitObserve, .copyOutStop, .copyInStop]

/-- The pattern list of spec Scenario C: `[/foo/, /bar/]`. -/
def fooBarPats : List Pattern := [substrPat fooChars, substrPat barChars]

def zzPat : Pattern := substrPat ['z', 'z']

def readyPat : Pattern := substrPat readyChars

/-- A schedule in which the matcher ticks once and then the deadline of the
default timeout fires. -/
def trTimeoutOnly : List (Nat × Event) := [(0, .tick), (DefaultTimeout, .deadline)]

/-- A schedule with two ticks, an append of non-matching output, and the
deadline of a 100ns timeout. -/
def trNoMatch : List (Nat × Event) :=
  [(0, .tick), (40, .append ['a', 'b']), (60, .tick), (100, .deadline)]

def trShort : List (Nat × Event) := [(0, .tick), (100, .deadline)]

/-!
# Theorems
-/

/-! ## Generic lemmas about the expect machine -/

/-- Running the loop over `pre ++ suf` continues `suf` from the buffer the
still-running loop reached after `pre`. -/
theorem runExpect_append_running (ps : List Pattern) :
    ∀ (pre suf : List (Nat × Event)) (buf b : List Char),
      runExpect ps pre buf = Outcome.running b →
      runExpect ps (pre ++ suf) buf = runExpect ps suf b := by
  intro pre
  induction pre with
  | nil =>
      intro suf buf b h
      simp [runExpect] at h
      subst h
      simp
  | cons te rest ih =>
      intro suf buf b h
      obtain ⟨t, e⟩ := te
      cases e with
      | append bs =>
          simp only [runExpect, List.cons_append] at h ⊢
          exact ih suf (buf ++ bs) b h
      | errev k => simp [runExpect] at h
      | tick =>
          simp only [runExpect, List.cons_append] at h ⊢
          cases hm : findMatch ps buf with
          | some i => rw [hm] at h; simp at h
          | none =>
              rw [hm] at h
              exact ih suf buf b h
      | deadline => simp [runExpect] at h

/-- The scan misses exactly when every pattern misses the snapshot. -/
theorem findMatch_eq_none_iff (ps : List Pattern) (b : List Char) :
    findMatch ps b = none ↔ ∀ p ∈ ps, p b = false := by
  induction ps with
  | nil => simp [findMatch]
  | cons p rest ih =>
      by_cases hp : p b = true
      · simp [findMatch, hp]
      · have hp' : p b = false := by simpa using hp
        simp [findMatch, hp', ih]

/-- The scan returns the least matching index: if pattern `k` matches the
snapshot and every earlier pattern misses it, the scan returns `k`. -/
theorem findMatch_first (b : List Char) :
    ∀ (ps : List Pattern) (k : Nat), k < ps.length →
      (ps.getD k pfalse) b = true →
      (∀ j, j < k → (ps.getD j pfalse) b = false) →
      findMatch ps b = some k := by
  intro ps
  induction ps with
  | nil => intro k hk; simp at hk
  | cons p rest ih =>
      intro k hk hmatch hbefore
      cases k with
      | zero =>
          have hp : p b = true := by simpa [List.getD] using hmatch
          simp [findMatch, hp]
      | succ k =>
          have hp : p b = false := by
            have := hbefore 0 (Nat.succ_pos k)
            simpa [List.getD] using this
          have hrest : findMatch rest b = some k := by
            refine ih k ?_ ?_ ?_
            · simpa using hk
            · simpa [List.getD] using hmatch
            · intro j hj
              have := hbefore (j + 1) (Nat.succ_lt_succ hj)
              simpa [List.getD] using this
          simp [findMatch, hp, hrest]

/-- If no error is delivered and no tick ever sees a matching snapshot, a
schedule containing a deadline delivery makes the loop return
`(-1, ErrTimeout)` at the (first) deadline delivery, whose time the deadline
context bounds below by the timeout. -/
theorem runExpect_timeout_core (ps : List Pattern) (T : Nat) :
    ∀ (tr : List (Nat × Event)) (buf : List Char),
      wfTrace T tr = true → noErrEv tr = true →
      ticksNeverMatch ps tr buf = true → hasDeadline tr = true →
      ∃ t, T ≤ t ∧ runExpect ps tr buf = Outcome.done t (-1) (some ExpectErr.timeout) := by
  intro tr
  induction tr with
  | nil =>
      intro buf _ _ _ hd
      simp [hasDeadline] at hd
  | cons te rest ih =>
      intro buf hwf herr htick hd
      obtain ⟨t, e⟩ := te
      cases e with
      | deadline =>
          refine ⟨t, ?_, rfl⟩
          have := (Bool.and_eq_true _ _).mp hwf |>.1
          simpa using this
      | errev k => simp [noErrEv] at herr
      | append bs =>
          have hwf' : wfTrace T rest = true := hwf
          have herr' : noErrEv rest = true := herr
          have htick' : ticksNeverMatch ps rest (buf ++ bs) = true := htick
          have hd' : hasDeadline rest = true := hd
          simpa [runExpect] using ih (buf ++ bs) hwf' herr' htick' hd'
      | tick =>
          have hwf' : wfTrace T rest = true := hwf
          have herr' : noErrEv rest = true := herr
          have hsplit := (Bool.and_eq_true _ _).mp htick
          have hnone : findMatch ps buf = none :=
            Option.isNone_iff_eq_none.mp hsplit.1
          have hd' : hasDeadline rest = true := hd
          have := ih buf hwf' herr' hsplit.2 hd'
          obtain ⟨t0, hT, hrun⟩ := this
          refine ⟨t0, hT, ?_⟩
          simp only [runExpect, hnone]
          exact hrun

/-- A schedule with no reader-caused events has no error deliveries. -/
theorem proj_nil_noErr : ∀ tr : List (Nat × Event), proj tr = [] → noErrEv tr = true := by
  intro tr
  induction tr with
  | nil => intro _; rfl
  | cons te rest ih =>
      intro h
      obtain ⟨t, e⟩ := te
      cases e with
      | append bs => simp [proj] at h
      | errev k => simp [proj] at h
      | tick =>
          have h' : proj rest = [] := by simpa [proj] using h
          simpa [noErrEv] using ih h'
      | deadline =>
          have h' : proj rest = [] := by simpa [proj] using h
          simpa [noErrEv] using ih h'

/-- In a schedule with no reader-caused events the buffer never grows, so if
the patterns miss the starting buffer, no tick ever matches. -/
theorem proj_nil_ticksNeverMatch (ps : List Pattern) :
    ∀ (tr : List (Nat × Event)) (buf : List Char), proj tr = [] →
      findMatch ps buf = none → ticksNeverMatch ps tr buf = true := by
  intro tr
  induction tr with
  | nil => intro buf _ _; rfl
  | cons te rest ih =>
      intro buf h hbuf
      obtain ⟨t, e⟩ := te
      cases e with
      | append bs => simp [proj] at h
      | errev k => simp [proj] at h
      | tick =>
          have h' : proj rest = [] := by simpa [proj] using h
          have : ticksNeverMatch ps rest buf = true := ih buf h' hbuf
          simp [ticksNeverMatch, hbuf, this]
      | deadline =>
          have h' : proj rest = [] := by simpa [proj] using h
          have : ticksNeverMatch ps rest buf = true := ih buf h' hbuf
          simpa [ticksNeverMatch] using this

/-! ## Claim theorems -/

/-- C1: whenever a matcher tick of `ExpectExpressionsWithTimeout` snapshots
an accumulated buffer `b` in which some pattern matches, the call returns at
that tick with the index of the first matching pattern in caller-supplied
list order — the index depends only on the snapshot `b`, not on the schedule
`pre` of byte arrivals that produced it. -/
theorem c1_first_pattern_in_list_order_wins (ps : List Pattern) (d t : Nat)
    (pre : List (Nat × Event)) (b : List Char) (k : Nat)
    (hpre : runExpect ps pre [] = Outcome.running b)
    (hk : k < ps.length)
    (hmatch : (ps.getD k pfalse) b = true)
    (hbefore : ∀ j, j < k → (ps.getD j pfalse) b = false)
    (hwf : wfTrace d (pre ++ [(t, Event.tick)]) = true) :
    runExpect ps (pre ++ [(t, Event.tick)]) [] = Outcome.done t (Int.ofNat k) none ∧
    ExpectExpressionsWithTimeout ps d (pre ++ [(t, Event.tick)]) =
      some (Int.ofNat k, none) := by
  have hscan : findMatch ps b = some k := findMatch_first b ps k hk hmatch hbefore
  have hrun : runExpect ps (pre ++ [(t, Event.tick)]) [] =
      Outcome.done t (Int.ofNat k) none := by
    rw [runExpect_append_running ps pre [(t, Event.tick)] [] b hpre]
    simp [runExpect, hscan]
  refine ⟨hrun, ?_⟩
  simp [ExpectExpressionsWithTimeout, hwf, hrun, extractOutcome]

/-- Witness for C1, spec Scenario C: patterns `[/foo/, /bar/]` against
accumulated output `"barfoo"` — pattern 0 wins although `"bar"` arrived
first in the byte stream. -/
theorem c1_witness :
    runExpect fooBarPats [(0, Event.append barfooChars)] [] =
      Outcome.running barfooChars ∧
    runExpect fooBarPats [(0, Event.append barfooChars), (5, Event.tick)] [] =
      Outcome.done 5 (Int.ofNat 0) none ∧
    ExpectExpressionsWithTimeout fooBarPats 100
      [(0, Event.append barfooChars), (5, Event.tick)] = some (Int.ofNat 0, none) := by
  have h := c1_first_pattern_in_list_order_wins fooBarPats 100 5
    [(0, Event.append barfooChars)] barfooChars 0
    (by decide) (by decide) (by decide)
    (fun j hj => absurd hj (Nat.not_lt_zero j)) (by decide)
  exact ⟨by decide, h.1, h.2⟩

/-- C3: on a schedule where no error is delivered and no tick ever sees a
matching snapshot, a deadline delivery makes
`ExpectExpressionsWithTimeout(patterns, T)` return `(-1, ErrTimeout)`; the
return happens at a moment no earlier than `T` (the deadline context cannot
fire before its deadline), and `ErrTimeout` is a sentinel distinct from
every wrapped I/O error. -/
theorem c3_timeout_after_deadline_with_sentinel (ps : List Pattern) (T : Nat)
    (tr : List (Nat × Event))
    (hwf : wfTrace T tr = true) (herr : noErrEv tr = true)
    (htick : ticksNeverMatch ps tr [] = true) (hd : hasDeadline tr = true) :
    (∃ t, T ≤ t ∧
      runExpect ps tr [] = Outcome.done t (-1) (some ExpectErr.timeout) ∧
      ExpectExpressionsWithTimeout ps T tr = some (-1, some ExpectErr.timeout)) ∧
    ∀ e, ExpectErr.timeout ≠ ExpectErr.io e := by
  obtain ⟨t, hT, hrun⟩ := runExpect_timeout_core ps T tr [] hwf herr htick hd
  refine ⟨⟨t, hT, hrun, ?_⟩, fun e h => by cases h⟩
  simp [ExpectExpressionsWithTimeout, hwf, hrun, extractOutcome]

/-- Witness for C3: the never-matching pattern `/zz/` against output
`"ab"`, timeout 100: the call returns `(-1, ErrTimeout)` at time 100. -/
theorem c3_witness :
    wfTrace 100 trNoMatch = true ∧ noErrEv trNoMatch = true ∧
    ticksNeverMatch [zzPat] trNoMatch [] = true ∧ hasDeadline trNoMatch = true ∧
    ((∃ t, 100 ≤ t ∧
        runExpect [zzPat] trNoMatch [] = Outcome.done t (-1) (some ExpectErr.timeout) ∧
        ExpectExpressionsWithTimeout [zzPat] 100 trNoMatch =
          some (-1, some ExpectErr.timeout)) ∧
      ∀ e, ExpectErr.timeout ≠ ExpectErr.io e) :=
  ⟨by decide, by decide, by decide, by decide,
    c3_timeout_after_deadline_with_sentinel [zzPat] 100 trNoMatch
      (by decide) (by decide) (by decide) (by decide)⟩

/-- C2 (code defect): on the pty stream of spec Scenario A — the child
writes `"ready"` and then blocks with the pty still open — `readOutput`'s
`io.Copy(&temp, s.pty)` never returns, so the reader contributes no appends
and no errors to any schedule; consequently every schedule consistent with
this reader makes `Expect(/ready/)` time out with `(false, ErrTimeout)`,
not return `(true, nil)` as the spec's non-blocking-drain contract
requires. -/
theorem c2_ready_then_block_times_out :
    (∀ fuel, readerEvents fuel readyThenBlock = []) ∧
    (∀ tr, wfTrace DefaultTimeout tr = true → hasDeadline tr = true →
      (∃ fuel, proj tr = (readerEvents fuel readyThenBlock).map reventToEvent) →
      Expect readyPat tr = some (false, some ExpectErr.timeout)) := by
  have hreader : ∀ fuel, readerEvents fuel readyThenBlock = [] := by
    intro fuel
    cases fuel with
    | zero => rfl
    | succ n => simp [readerEvents, ioCopy, readyThenBlock]
  refine ⟨hreader, ?_⟩
  intro tr hwf hd hproj
  obtain ⟨fuel, hp⟩ := hproj
  rw [hreader fuel] at hp
  simp only [List.map_nil] at hp
  have herr : noErrEv tr = true := proj_nil_noErr tr hp
  have hempty : findMatch [readyPat] [] = none := by decide
  have htick : ticksNeverMatch [readyPat] tr [] = true :=
    proj_nil_ticksNeverMatch [readyPat] tr [] hp hempty
  obtain ⟨t, _, hrun⟩ :=
    runExpect_timeout_core [readyPat] DefaultTimeout tr [] hwf herr htick hd
  simp [Expect, ExpectWithTimeout, ExpectExpressionsWithTimeout, hwf, hrun,
    extractOutcome]

/-- Witness for C2: a concrete schedule (one tick, then the deadline) for
the blocked reader: `Expect(/ready/)` returns `(false, ErrTimeout)`. -/
theorem c2_witness :
    readerEvents 3 readyThenBlock = [] ∧
    wfTrace DefaultTimeout trTimeoutOnly = true ∧
    hasDeadline trTimeoutOnly = true ∧
    Expect readyPat trTimeoutOnly = some (false, some ExpectErr.timeout) :=
  ⟨by decide, by decide, by decide,
    (c2_ready_then_block_times_out.2 trTimeoutOnly (by decide) (by decide)
      ⟨3, by decide⟩)⟩

/-- C8: (i) when `io.Copy` returns a non-EOF read error, `readOutput` sends
exactly that error and stops (no further polling: the event list ends);
(ii) when the loop receives the error it returns at once with `(-1, wrapped
error)` — events scheduled later are never consumed; (iii) an end-of-stream
read is non-fatal: the copied bytes are appended and the reader polls on. -/
theorem c8_reader_error_fatal_eof_nonfatal :
    (∀ fuel e rest, e ≠ ioEOF →
      readerEvents (fuel + 1) (ReadEv.fail e :: rest) = [REvent.errSend e]) ∧
    (∀ (ps : List Pattern) pre b t e rest,
      runExpect ps pre [] = Outcome.running b →
      runExpect ps (pre ++ (t, Event.errev e) :: rest) [] =
        Outcome.done t (-1) (some (ExpectErr.io e))) ∧
    (∀ fuel bs rest, bs ≠ [] →
      readerEvents (fuel + 1) (ReadEv.bytes bs :: ReadEv.eos :: rest) =
        REvent.append bs :: readerEvents fuel rest) := by
  refine ⟨?_, ?_, ?_⟩
  · intro fuel e rest he
    have hb : (e == ioEOF) = false := beq_eq_false_iff_ne.mpr he
    simp [readerEvents, ioCopy, hb]
  · intro ps pre b t e rest hpre
    rw [runExpect_append_running ps pre ((t, Event.errev e) :: rest) [] b hpre]
    rfl
  · intro fuel bs rest hbs
    cases bs with
    | nil => exact absurd rfl hbs
    | cons c cs => simp [readerEvents, ioCopy]

/-- Witness for C8: error code 5 aborts the reader and surfaces wrapped;
an end-of-stream after one byte appends the byte and keeps polling. -/
theorem c8_witness :
    readerEvents 1 [ReadEv.fail 5] = [REvent.errSend 5] ∧
    runExpect [zzPat] [(4, Event.errev 5), (9, Event.tick)] [] =
      Outcome.done 4 (-1) (some (ExpectErr.io 5)) ∧
    readerEvents 1 [ReadEv.bytes ['a'], ReadEv.eos] = [REvent.append ['a']] := by
  refine ⟨c8_reader_error_fatal_eof_nonfatal.1 0 5 [] (by decide), ?_, ?_⟩
  · exact c8_reader_error_fatal_eof_nonfatal.2.1 [zzPat] [] [] 4 5
      [(9, Event.tick)] rfl
  · have := c8_reader_error_fatal_eof_nonfatal.2.2 0 ['a'] [] (by decide)
    simpa using this

/-- C9: the single-pattern operations are thin projections of the
multi-pattern one — `ExpectWithTimeout(p, d)` is
`ExpectExpressionsWithTimeout([p], d)` with the boolean true exactly when
the index is 0 and the same error; `Expect` and `ExpectExpressions` fix the
timeout to `DefaultTimeout`, which is 30 seconds. -/
theorem c9_single_pattern_projections (p : Pattern) (ps : List Pattern)
    (d : Nat) (tr : List (Nat × Event)) :
    ExpectWithTimeout p d tr =
      (ExpectExpressionsWithTimeout [p] d tr).map (fun r => (r.1 == 0, r.2)) ∧
    (∀ b e, ExpectWithTimeout p d tr = some (b, e) →
      ∃ i, ExpectExpressionsWithTimeout [p] d tr = some (i, e) ∧
        (b = true ↔ i = 0)) ∧
    Expect p tr = ExpectWithTimeout p DefaultTimeout tr ∧
    ExpectExpressions ps tr = ExpectExpressionsWithTimeout ps DefaultTimeout tr ∧
    DefaultTimeout = 30 * second := by
  refine ⟨rfl, ?_, rfl, rfl, rfl⟩
  intro b e h
  obtain ⟨r, hsome, hmap⟩ := Option.map_eq_some'.mp h
  obtain ⟨i, e'⟩ := r
  simp only [Prod.mk.injEq] at hmap
  obtain ⟨hb, he⟩ := hmap
  subst he
  refine ⟨i, hsome, ?_⟩
  rw [← hb]
  exact beq_iff_eq

/-- Witness for C9: the projection at a concrete timed-out call. -/
theorem c9_witness :
    ∃ i, ExpectExpressionsWithTimeout [zzPat] 100 trShort =
      some (i, some ExpectErr.timeout) ∧ (false = true ↔ i = 0) :=
  (c9_single_pattern_projections zzPat [zzPat] 100 trShort).2.1 false
    (some ExpectErr.timeout) (by decide)

/-- UTF-8 encoding distributes over Go string concatenation. -/
theorem toBytes_append : ∀ u v : List Char, toBytes (u ++ v) = toBytes u ++ toBytes v := by
  intro u v
  induction u with
  | nil => simp [toBytes]
  | cons c cs ih => simp [toBytes, ih]

/-- C7: `SendLine(s)` is byte-identical to `Send(s + "\r\n")` — it is the
same call on the same session state, the bytes that reach the pty are
exactly the UTF-8 bytes of `s` followed by CR LF, and the error results
coincide in all conditions. -/
theorem c7_sendline_is_send_crlf (s : SubProcess) (v : List Char) :
    SendLine s v = Send s (v ++ ['\r', '\n']) ∧
    toBytes (v ++ ['\r', '\n']) = toBytes v ++ [13, 10] ∧
    (∀ w, s.pty = some w →
      SendLine s v = ({ s with pty := some (w ++ (toBytes v ++ [13, 10])) }, none)) ∧
    (SendLine s v).2 = (Send s (v ++ ['\r', '\n'])).2 := by
  have hcr : toBytes ['\r', '\n'] = [13, 10] := by decide
  have hbytes : toBytes (v ++ ['\r', '\n']) = toBytes v ++ [13, 10] := by
    rw [toBytes_append, hcr]
  refine ⟨rfl, hbytes, ?_, rfl⟩
  intro w hw
  simp [SendLine, Send, ptyWrite, hw, hbytes]

/-- Witness for C7 on a freshly started session. -/
theorem c7_witness :
    startedSession.pty = some [] ∧
    SendLine startedSession ['h', 'i'] =
      ({ startedSession with
          pty := some (([] : List Nat) ++ (toBytes ['h', 'i'] ++ [13, 10])) }, none) :=
  ⟨rfl, (c7_sendline_is_send_crlf startedSession ['h', 'i']).2.2.1 [] rfl⟩

/-- C10: on a session whose `Start` has not run, `Close()` panics — it
dereferences the nil `command.Process` — while `Send` and `SendLine` return
`os.ErrInvalid` from the nil pty file handle instead of panicking, leaving
the session unchanged. -/
theorem c10_close_unstarted_panics_send_errors :
    Close NewSubProcess = CloseRes.panics ∧
    ∀ v, Send NewSubProcess v = (NewSubProcess, some errInvalid) ∧
      SendLine NewSubProcess v = (NewSubProcess, some errInvalid) :=
  ⟨rfl, fun _ => ⟨rfl, rfl⟩⟩

/-! ## Lemmas about the `Interact` machine -/

/-- No delivery writes to the session's in-memory log: the `Interact` path
contains no `s.log.Printf` call. -/
theorem istep_sessionLog (s : IState) (e : IEvent) :
    (istep s e).sessionLog = s.sessionLog := by
  cases e with
  | errDeliver x => by_cases h : s.listenRunning <;> simp [istep, h]
  | sigWinch => rfl
  | sigInterrupt => by_cases h : s.listenRunning <;> simp [istep, h]
  | childExit oe =>
      cases oe with
      | none => rfl
      | some x => by_cases h : s.listenRunning <;> simp [istep, h]
  | waitObserve => simp only [istep]; split <;> rfl
  | copyOutStop => simp only [istep]; split <;> rfl
  | copyInStop => simp only [istep]; split <;> rfl

theorem foldl_sessionLog : ∀ (tr : List IEvent) (s : IState),
    (tr.foldl istep s).sessionLog = s.sessionLog := by
  intro tr
  induction tr with
  | nil => intro s; rfl
  | cons e rest ih => intro s; rw [List.foldl_cons, ih, istep_sessionLog]

/-- The process-wide log only grows. -/
theorem istep_globalLog_mono (s : IState) (e : IEvent) (x : Nat)
    (h : x ∈ s.globalLog) : x ∈ (istep s e).globalLog := by
  cases e with
  | errDeliver y =>
      by_cases hl : s.listenRunning
      · simp only [istep, hl, if_pos]
        exact List.mem_append_left _ h
      · simpa [istep, hl] using h
  | sigWinch => exact h
  | sigInterrupt => by_cases hl : s.listenRunning <;> simpa [istep, hl] using h
  | childExit oe =>
      cases oe with
      | none => exact h
      | some y =>
          by_cases hl : s.listenRunning
          · simp only [istep, hl, if_pos]
            exact List.mem_append_left _ h
          · simpa [istep, hl] using h
  | waitObserve => simp only [istep]; split <;> simpa using h
  | copyOutStop => simp only [istep]; split <;> simpa using h
  | copyInStop => simp only [istep]; split <;> simpa using h

theorem foldl_globalLog_mono : ∀ (tr : List IEvent) (s : IState) (x : Nat),
    x ∈ s.globalLog → x ∈ (tr.foldl istep s).globalLog := by
  intro tr
  induction tr with
  | nil => intro s x h; exact h
  | cons e rest ih =>
      intro s x h
      rw [List.foldl_cons]
      exact ih _ x (istep_globalLog_mono s e x h)

/-- Deliveries possible in a clean run keep the context uncancelled and the
pty-to-stdout copier running. -/
theorem clean_preserves : ∀ (tr : List IEvent) (s : IState),
    (∀ e ∈ tr, cleanEvent e = true) → s.cancelled = false →
    (tr.foldl istep s).cancelled = false ∧
    (tr.foldl istep s).copyOutRunning = s.copyOutRunning := by
  intro tr
  induction tr with
  | nil => intro s _ hc; exact ⟨hc, rfl⟩
  | cons e rest ih =>
      intro s hclean hc
      have he : cleanEvent e = true := hclean e (List.mem_cons_self e rest)
      have hrest : ∀ x ∈ rest, cleanEvent x = true :=
        fun x hx => hclean x (List.mem_cons_of_mem e hx)
      rw [List.foldl_cons]
      cases e with
      | errDeliver x => simp [cleanEvent] at he
      | sigInterrupt => simp [cleanEvent] at he
      | sigWinch => exact ih s hrest hc
      | childExit oe =>
          cases oe with
          | none =>
              have := ih { s with childExited := true } hrest (by simpa using hc)
              simpa [istep] using this
          | some x => simp [cleanEvent] at he
      | waitObserve =>
          by_cases hg : (s.waitRunning && (s.cancelled || s.childExited)) = true
          · have := ih { s with waitRunning := false } hrest (by simpa using hc)
            simpa [istep, hg] using this
          · have hgf : (s.waitRunning && (s.cancelled || s.childExited)) = false := by
              simpa using hg
            have := ih s hrest hc
            simpa [istep, hgf] using this
      | copyOutStop =>
          have hgf : (s.copyOutRunning && s.cancelled) = false := by simp [hc]
          have := ih s hrest hc
          simpa [istep, hgf] using this
      | copyInStop =>
          have hgf : (s.copyInRunning && s.cancelled) = false := by simp [hc]
          have := ih s hrest hc
          simpa [istep, hgf] using this

/-- Without a cancel-inducing delivery, `listenForShutdown` never returns
and the context stays uncancelled. -/
theorem nocancel_preserves : ∀ (tr : List IEvent) (s : IState),
    (∀ e ∈ tr, cancelEvent e = false) → s.cancelled = false →
    s.listenRunning = true →
    (tr.foldl istep s).cancelled = false ∧
    (tr.foldl istep s).listenRunning = true := by
  intro tr
  induction tr with
  | nil => intro s _ hc hl; exact ⟨hc, hl⟩
  | cons e rest ih =>
      intro s hnc hc hl
      have he : cancelEvent e = false := hnc e (List.mem_cons_self e rest)
      have hrest : ∀ x ∈ rest, cancelEvent x = false :=
        fun x hx => hnc x (List.mem_cons_of_mem e hx)
      rw [List.foldl_cons]
      cases e with
      | errDeliver x => simp [cancelEvent] at he
      | sigInterrupt => simp [cancelEvent] at he
      | sigWinch => exact ih s hrest hc hl
      | childExit oe =>
          cases oe with
          | none =>
              have := ih { s with childExited := true } hrest
                (by simpa using hc) (by simpa using hl)
              simpa [istep] using this
          | some x => simp [cancelEvent] at he
      | waitObserve =>
          by_cases hg : (s.waitRunning && (s.cancelled || s.childExited)) = true
          · have := ih { s with waitRunning := false } hrest
              (by simpa using hc) (by simpa using hl)
            simpa [istep, hg] using this
          · have hgf : (s.waitRunning && (s.cancelled || s.childExited)) = false := by
              simpa using hg
            have := ih s hrest hc hl
            simpa [istep, hgf] using this
      | copyOutStop =>
          have hgf : (s.copyOutRunning && s.cancelled) = false := by simp [hc]
          have := ih s hrest hc hl
          simpa [istep, hgf] using this
      | copyInStop =>
          have hgf : (s.copyInRunning && s.cancelled) = false := by simp [hc]
          have := ih s hrest hc hl
          simpa [istep, hgf] using this

/-- C4 counterexample: a run in which a worker error is delivered.
`Interact` indeed returns nil, but the error is not accumulated in the
in-memory session log that is printed when the call ends — that log stays
empty (the error went straight to the process-wide logger instead). -/
theorem c4_counterexample_error_absent_from_session_log :
    InteractResult c4trace = none ∧
    deliveredErrors c4trace = [7] ∧
    ¬ (∀ x ∈ deliveredErrors c4trace, x ∈ (interactRun c4trace).sessionLog) := by
  decide

/-- C4 (amended): `Interact()` always returns a nil error and worker errors
are never surfaced as the call's result; a delivered worker error is written
immediately to the process-wide log, while the session's in-memory log —
the one printed when the call ends — is never appended to on this path. -/
theorem c4_interact_returns_nil_logs_globally (tr : List IEvent) :
    InteractResult tr = none ∧
    (interactRun tr).sessionLog = [] ∧
    ∀ pre e rest, tr = pre ++ IEvent.errDeliver e :: rest →
      (interactRun pre).listenRunning = true →
      e ∈ (interactRun tr).globalLog := by
  refine ⟨rfl, foldl_sessionLog tr initIState, ?_⟩
  intro pre e rest htr hl
  subst htr
  unfold interactRun
  rw [List.foldl_append, List.foldl_cons]
  apply foldl_globalLog_mono
  have hl' : (List.foldl istep initIState pre).listenRunning = true := hl
  have hstep : istep (List.foldl istep initIState pre) (IEvent.errDeliver e) =
      { List.foldl istep initIState pre with
          listenRunning := false, cancelled := true,
          globalLog := (List.foldl istep initIState pre).globalLog ++ [e] } := by
    simp [istep, hl']
  rw [hstep]
  exact List.mem_append_right _ (List.mem_singleton.mpr rfl)

/-- Witness for C4's amended claim at the concrete error run. -/
theorem c4_witness :
    InteractResult c4trace = none ∧
    (interactRun c4trace).sessionLog = [] ∧
    7 ∈ (interactRun c4trace).globalLog := by
  have h := c4_interact_returns_nil_logs_globally c4trace
  exact ⟨h.1, h.2.1,
    h.2.2 [] 7 [IEvent.waitObserve, IEvent.copyOutStop, IEvent.copyInStop]
      rfl (by decide)⟩

/-- C5 counterexample: a clean (error-free) child exit with no operator
interrupt never lets `Interact` return — no schedule of such deliveries
stops all four workers, because `listenForShutdown` only returns on an
error or interrupt delivery and the copiers only stop once the context is
cancelled. -/
theorem c5_counterexample_clean_exit_never_returns : ¬ CleanExitReturns := by
  rintro ⟨tr, hclean, _, hstop⟩
  have h := clean_preserves tr initIState hclean rfl
  have hcout : (interactRun tr).copyOutRunning = true := h.2
  simp [allStopped, hcout] at hstop

/-- C5 (amended): `Interact` spawns four workers over one cancellation
context and its `wg.Wait()` returns only when all four have stopped; all
four can have stopped only if the trace delivered a cancel-inducing event —
a worker error or an interrupt-class signal (a clean child exit is not
one). -/
theorem c5_return_requires_cancel_delivery (tr : List IEvent)
    (h : allStopped (interactRun tr) = true) :
    ∃ e, e ∈ tr ∧ cancelEvent e = true := by
  by_contra hno
  push_neg at hno
  have hall : ∀ e ∈ tr, cancelEvent e = false := by
    intro e he
    simpa using hno e he
  have hlisten : (interactRun tr).listenRunning = true :=
    (nocancel_preserves tr initIState hall rfl rfl).2
  simp [allStopped, hlisten] at h

/-- Witness for C5's amended claim: the interrupt path does stop all four
workers, and the theorem recovers the cancel-inducing delivery. -/
theorem c5_witness :
    allStopped (interactRun c5trace) = true ∧
    ∃ e, e ∈ c5trace ∧ cancelEvent e = true :=
  ⟨by decide, c5_return_requires_cancel_delivery c5trace (by decide)⟩

/-! ## Lemmas about the child lifecycle -/

/-- No call other than `Interact` performs a wait, so a zombie stays a
zombie. -/
theorem pstep_nowait : ∀ (ops : List SOp) (st : PState),
    (∀ o ∈ ops, o ≠ SOp.interact) → st = PState.zombie →
    ops.foldl pstep st = PState.zombie := by
  intro ops
  induction ops with
  | nil => intro st _ h; exact h
  | cons o rest ih =>
      intro st hno h
      subst h
      have ho : o ≠ SOp.interact := hno o (List.mem_cons_self o rest)
      have hrest : ∀ x ∈ rest, x ≠ SOp.interact :=
        fun x hx => hno x (List.mem_cons_of_mem o hx)
      rw [List.foldl_cons]
      cases o with
      | interact => exact absurd rfl ho
      | close => exact ih _ hrest rfl
      | send => exact ih _ hrest rfl
      | sendLine => exact ih _ hrest rfl
      | expectOp => exact ih _ hrest rfl

/-- C6 counterexample: `Close()` on a started session kills the child but
performs no wait; with no further calls the child is a zombie, not reaped —
and it stays one across more `Send`/`Close` calls. -/
theorem c6_counterexample_close_leaves_zombie :
    pRun [SOp.close] = PState.zombie ∧
    pRun [SOp.close, SOp.send, SOp.close] = PState.zombie ∧
    PState.zombie ≠ PState.reaped := by
  decide

/-- C6 (amended): after `Close()` the child is reaped only if something
else performs a wait — only `Interact`'s completion waiter calls
`cmd.Wait` in this package; absent an `Interact` call the child remains a
zombie indefinitely. -/
theorem c6_close_without_wait_leaves_zombie (more : List SOp)
    (h : ∀ o ∈ more, o ≠ SOp.interact) :
    pRun (SOp.close :: more) = PState.zombie := by
  unfold pRun
  rw [List.foldl_cons]
  exact pstep_nowait more (pstep PState.running SOp.close) h rfl

/-- Witness for C6's amended claim. -/
theorem c6_witness :
    pRun (SOp.close :: [SOp.send, SOp.expectOp]) = PState.zombie :=
  c6_close_without_wait_leaves_zombie [SOp.send, SOp.expectOp] (by decide)

end Subproc
